import Mathlib

/-!
# Verification of the libreauth OATH module (`src/oath/mod.rs`)

Shallow embedding of the shared OATH builder logic (`builder_common!`) and
the C-binding helper functions (`mod c`), with theorems checking the
natural-language specification against this embedding.

Conventions:
* Rust `usize` is modelled as `Nat` with the 64-bit bound made explicit
  (`USIZE_MAX = 2 ^ 64 - 1`); `checked_mul` returns `none` exactly when the
  mathematical product exceeds `USIZE_MAX`.
* Byte strings (`Vec<u8>`, `&[u8]`, and Rust `String`, whose contents are
  bytes) are modelled as `List Nat`, each element a byte value.
* A raw pointer together with the memory behind it is modelled as
  `Option (Nat → Nat)`: `none` is the null pointer, `some mem` is a non-null
  pointer whose byte at offset `i` is `mem i`.
* Rust functions that can panic on an out-of-bounds index are modelled as
  `Option`-returning functions: `none` models a panic.
-/

/-- The `HashFunction` enum of `src/oath/mod.rs`. -/
inductive HashFunction where
  | Sha1
  | Sha256
  | Sha512
  deriving DecidableEq, Repr

/-- The `ErrorCode` enum of `src/oath/mod.rs`. -/
inductive ErrorCode where
  | CfgNullPtr
  | CodeNullPtr
  | KeyNullPtr
  | InvalidBaseLen
  | InvalidKeyLen
  | CodeTooSmall
  | CodeTooBig
  | InvalidKey
  | InvalidPeriod
  | CodeInvalidUTF8
  deriving DecidableEq, Repr

/-- The integer discriminants assigned to `ErrorCode` in the source. -/
def ErrorCode.code : ErrorCode → Nat
  | .CfgNullPtr => 1
  | .CodeNullPtr => 2
  | .KeyNullPtr => 3
  | .InvalidBaseLen => 10
  | .InvalidKeyLen => 11
  | .CodeTooSmall => 12
  | .CodeTooBig => 13
  | .InvalidKey => 20
  | .InvalidPeriod => 21
  | .CodeInvalidUTF8 => 30

/-- `usize::MAX` on a 64-bit platform. -/
def USIZE_MAX : Nat := 2 ^ 64 - 1

/-- Rust `usize::checked_mul`: `none` exactly when the product overflows. -/
def checked_mul (a b : Nat) : Option Nat :=
  if a * b ≤ USIZE_MAX then some (a * b) else none

/-- Is `b` the byte of an ASCII hexadecimal digit? -/
def isHexDigitByte (b : Nat) : Bool :=
  (48 ≤ b && b ≤ 57) || (97 ≤ b && b ≤ 102) || (65 ≤ b && b ≤ 70)

/-- Value of an ASCII hexadecimal digit byte. -/
def hexDigitVal (b : Nat) : Nat :=
  if b ≤ 57 then b - 48 else if b ≤ 70 then b - 55 else b - 87

/-- Modelled from the spec: the hexadecimal key decoder used by `hex_key`
(`key.from_hex()` comes from an external crate, not under `src/`).
"Hex path fails with `InvalidKey` on any non-hex-digit or odd-length input":
the input is consumed two hex digits at a time, each pair giving one byte;
an odd-length input or any non-hex-digit byte makes decoding fail. -/
def from_hex : List Nat → Option (List Nat)
  | [] => some []
  | [_] => none
  | c1 :: c2 :: rest =>
    if isHexDigitByte c1 && isHexDigitByte c2 then
      (from_hex rest).map (fun l => (16 * hexDigitVal c1 + hexDigitVal c2) :: l)
    else
      none

/-- Value of a byte in the RFC 4648 base32 alphabet (`A`–`Z`, `2`–`7`),
`none` for any byte outside the alphabet. -/
def base32Val (b : Nat) : Option Nat :=
  if 65 ≤ b && b ≤ 90 then some (b - 65)
  else if 50 ≤ b && b ≤ 55 then some (b - 24)
  else none

/-- Map every byte through `base32Val`, failing on the first byte outside
the alphabet. -/
def base32Vals : List Nat → Option (List Nat)
  | [] => some []
  | b :: rest =>
    match base32Val b with
    | some v => (base32Vals rest).map (fun l => v :: l)
    | none => none

/-- Big-endian recomposition of `n` bytes out of the natural number `v`. -/
def natToBytesBE : Nat → Nat → List Nat
  | 0, _ => []
  | n + 1, v => (v / 256 ^ n) % 256 :: natToBytesBE n (v % 256 ^ n)

/-- Modelled from the spec: RFC 4648 unpadded base32 decoding, as used by
`base32_key` (`base32::decode` comes from an external crate, not under
`src/`). "Base32 path fails with `InvalidKey` on any symbol outside the
RFC 4648 alphabet": each symbol contributes five bits; the first
`(5 * len) / 8` bytes of the resulting bit string are the decoded bytes. -/
def base32Decode (s : List Nat) : Option (List Nat) :=
  (base32Vals s).map (fun vals =>
    let bits := 5 * vals.length
    let v := vals.foldl (fun acc x => acc * 32 + x) 0
    natToBytesBE (bits / 8) (v / 2 ^ (bits % 8)))

/-- The builder state shared between `HOTPBuilder` and `TOTPBuilder`:
exactly the fields read or written by the `builder_common!` macro. -/
structure Builder where
  key : Option (List Nat)
  runtime_error : Option ErrorCode
  output_len : Nat
  output_base : List Nat
  hash_function : HashFunction
  deriving DecidableEq, Repr

/-- The `key` setter (named `setKey` here because `key` is the field). -/
def Builder.setKey (b : Builder) (k : List Nat) : Builder :=
  { b with key := some k }

/-- The `ascii_key` setter: the ASCII string's bytes become the key. -/
def Builder.ascii_key (b : Builder) (s : List Nat) : Builder :=
  { b with key := some s }

/-- The `hex_key` setter: on a successful decode the key is set; on a
failed decode `InvalidKey` is recorded in `runtime_error`. -/
def Builder.hex_key (b : Builder) (s : List Nat) : Builder :=
  match from_hex s with
  | some k => { b with key := some k }
  | none => { b with runtime_error := some ErrorCode.InvalidKey }

/-- The `base32_key` setter: on a successful decode the key is set; on a
failed decode `InvalidKey` is recorded in `runtime_error`. -/
def Builder.base32_key (b : Builder) (s : List Nat) : Builder :=
  match base32Decode s with
  | some k => { b with key := some k }
  | none => { b with runtime_error := some ErrorCode.InvalidKey }

/-- The `output_len` setter (named `setOutputLen`: `output_len` is the field). -/
def Builder.setOutputLen (b : Builder) (n : Nat) : Builder :=
  { b with output_len := n }

/-- The `output_base` setter (named `setOutputBase`: `output_base` is the field). -/
def Builder.setOutputBase (b : Builder) (base : List Nat) : Builder :=
  { b with output_base := base }

/-- The `hash_function` setter (named `setHashFunction`: `hash_function`
is the field). -/
def Builder.setHashFunction (b : Builder) (h : HashFunction) : Builder :=
  { b with hash_function := h }

/-- The loop body of `code_length`: `k` remaining iterations of
`nb_bits = nb_bits.checked_mul(base_len)`, returning `usize::MAX` as soon
as a multiplication overflows. -/
def codeLengthAux (base_len : Nat) : Nat → Nat → Nat
  | nb_bits, 0 => nb_bits
  | nb_bits, k + 1 =>
    match checked_mul nb_bits base_len with
    | some v => codeLengthAux base_len v k
    | none => USIZE_MAX

/-- `code_length` from `builder_common!`: starts from
`nb_bits = output_base.len()` and multiplies by `output_base.len()` once
for every element of the range `1..output_len` (that is,
`output_len - 1` times, zero times when `output_len ≤ 1`). -/
def Builder.code_length (b : Builder) : Nat :=
  codeLengthAux b.output_base.length b.output_base.length (b.output_len - 1)

/-- One call of one of the seven `builder_common!` setters. -/
inductive SetterCall where
  | key (k : List Nat)
  | ascii_key (s : List Nat)
  | hex_key (s : List Nat)
  | base32_key (s : List Nat)
  | output_len (n : Nat)
  | output_base (base : List Nat)
  | hash_function (h : HashFunction)
  deriving DecidableEq, Repr

/-- Apply one setter call to a builder. -/
def applySetter (b : Builder) : SetterCall → Builder
  | .key k => b.setKey k
  | .ascii_key s => b.ascii_key s
  | .hex_key s => b.hex_key s
  | .base32_key s => b.base32_key s
  | .output_len n => b.setOutputLen n
  | .output_base base => b.setOutputBase base
  | .hash_function h => b.setHashFunction h

/-- Apply a chain of setter calls, left to right. -/
def applySetters (b : Builder) (cs : List SetterCall) : Builder :=
  cs.foldl applySetter b

/-- Does this setter call fail to decode its key argument? Only `hex_key`
and `base32_key` can fail. -/
def setterFails : SetterCall → Bool
  | .hex_key s => (from_hex s).isNone
  | .base32_key s => (base32Decode s).isNone
  | _ => false

/-- The error recorded by the first failing decode of a call chain:
every failing decode records `ErrorCode::InvalidKey`. -/
def firstDecodeError (cs : List SetterCall) : Option ErrorCode :=
  (cs.find? setterFails).map (fun _ => ErrorCode.InvalidKey)

/-! ## The C-binding helpers (`mod c`) -/

/-- `std::slice::from_raw_parts(ptr, len).to_owned()`: the owned copy of the
`len` bytes in memory starting at the pointer. -/
def readBytes (mem : Nat → Nat) (len : Nat) : List Nat :=
  (List.range len).map mem

/-- Rust's bounds-checked element write `l[i] = v`: `none` models the panic
on an out-of-bounds index. -/
def listSet? (l : List Nat) (i v : Nat) : Option (List Nat) :=
  if i < l.length then some (l.set i v) else none

/-- The loop of `write_code` from position `i` on: write the bytes of
`code` at positions `i, i+1, …`, then write the terminating `0` at the
position right after the last byte written. Each write is bounds-checked;
`none` models a panic. -/
def writeCodeAux : List Nat → Nat → List Nat → Option (List Nat)
  | [], i, dest => listSet? dest i 0
  | c :: cs, i, dest => (listSet? dest i c).bind (writeCodeAux cs (i + 1))

/-- `write_code(code, dest)` from `mod c`: `dest[i] = code[i]` for every
`i` in `0..code.len()`, then `dest[code.len()] = 0`. `none` models the
panic an out-of-bounds index would raise. -/
def write_code (code dest : List Nat) : Option (List Nat) :=
  writeCodeAux code 0 dest

/-- `get_key(key, key_len)` from `mod c`. -/
def get_key (key : Option (Nat → Nat)) (key_len : Nat) :
    Except ErrorCode (List Nat) :=
  match key with
  | some mem =>
    match key_len with
    | 0 => .error ErrorCode.InvalidKeyLen
    | l => .ok (readBytes mem l)
  | none => .error ErrorCode.KeyNullPtr

/-- `get_output_base(output_base, output_base_len)` from `mod c`.
`[48, 49, 50, 51, 52, 53, 54, 55, 56, 57]` is
`"0123456789".to_owned().into_bytes()`. -/
def get_output_base (output_base : Option (Nat → Nat)) (output_base_len : Nat) :
    Except ErrorCode (List Nat) :=
  match output_base with
  | some mem =>
    match output_base_len with
    | 0 => .error ErrorCode.InvalidBaseLen
    | 1 => .error ErrorCode.InvalidBaseLen
    | l => .ok (readBytes mem l)
  | none => .ok [48, 49, 50, 51, 52, 53, 54, 55, 56, 57]

/-- Is `b` a UTF-8 continuation byte (`0x80`–`0xBF`)? -/
def utf8Cont (b : Nat) : Bool := 128 ≤ b && b < 192

/-- Modelled from the spec: UTF-8 validation as performed by
`String::from_utf8` (Rust standard library, not under `src/`). A byte
sequence is valid UTF-8 when it is a sequence of well-formed scalar-value
encodings: one byte `00`–`7F`; two bytes `C2`–`DF` + continuation; three
bytes `E0`–`EF` + two continuations with the restricted ranges that
exclude overlong forms and surrogates; four bytes `F0`–`F4` + three
continuations with the restricted ranges that exclude overlong forms and
values above `U+10FFFF`. -/
def validateUtf8 : List Nat → Bool
  | [] => true
  | b :: rest =>
    if b < 128 then validateUtf8 rest
    else if b < 194 then false
    else if b < 224 then
      match rest with
      | c1 :: rest2 => utf8Cont c1 && validateUtf8 rest2
      | [] => false
    else if b < 240 then
      match rest with
      | c1 :: c2 :: rest3 =>
        (if b = 224 then 160 ≤ c1 && c1 < 192
         else if b = 237 then 128 ≤ c1 && c1 < 160
         else utf8Cont c1) && utf8Cont c2 && validateUtf8 rest3
      | _ => false
    else if b < 245 then
      match rest with
      | c1 :: c2 :: c3 :: rest4 =>
        (if b = 240 then 144 ≤ c1 && c1 < 192
         else if b = 244 then 128 ≤ c1 && c1 < 144
         else utf8Cont c1) && utf8Cont c2 && utf8Cont c3 && validateUtf8 rest4
      | _ => false
    else false

/-- `get_code(code, code_len)` from `mod c`: a null pointer is
`CodeNullPtr`; otherwise the `code_len` bytes at the pointer are copied and
handed to `String::from_utf8`, whose failure becomes `CodeInvalidUTF8`.
A Rust `String` is its UTF-8 byte buffer, so the success value is the
copied byte list itself. -/
def get_code (code : Option (Nat → Nat)) (code_len : Nat) :
    Except ErrorCode (List Nat) :=
  match code with
  | none => .error ErrorCode.CodeNullPtr
  | some mem =>
    let bytes := readBytes mem code_len
    if validateUtf8 bytes then .ok bytes else .error ErrorCode.CodeInvalidUTF8

/-- The byte of the lowercase hexadecimal digit of value `n < 16`. -/
def hexDigitByte (n : Nat) : Nat :=
  if n < 10 then 48 + n else 87 + n

/-- Modelled from the spec: lowercase hexadecimal encoding of a byte
sequence, the encoding whose round-trip inverse the hex key decoder is
claimed to be ("Hex-key decoding is a round-trip inverse of
hex-encoding"). Each byte becomes its high then its low hex digit. -/
def toHex : List Nat → List Nat
  | [] => []
  | x :: xs => hexDigitByte (x / 16) :: hexDigitByte (x % 16) :: toHex xs

/-! ## Helper lemmas -/

theorem readBytes_length (mem : Nat → Nat) (len : Nat) :
    (readBytes mem len).length = len := by
  simp [readBytes]

theorem readBytes_getD (mem : Nat → Nat) (len i : Nat) (h : i < len) :
    (readBytes mem len).getD i 0 = mem i := by
  have hl : i < (readBytes mem len).length := by rw [readBytes_length]; exact h
  rw [List.getD_eq_getElem _ _ hl]
  simp [readBytes]

/-! ## Theorems about the claims -/

/-- C5: `get_key(ptr, len)` returns `Err(KeyNullPtr)` whenever `ptr` is
null (even with `len = 0`); returns `Err(InvalidKeyLen)` when `ptr` is
non-null and `len = 0`; and when `ptr` is non-null and `len > 0` returns
`Ok` with an owned copy of exactly the `len` bytes at `ptr`. -/
theorem get_key_spec (mem : Nat → Nat) (len : Nat) :
    get_key none len = .error ErrorCode.KeyNullPtr ∧
    get_key (some mem) 0 = .error ErrorCode.InvalidKeyLen ∧
    (0 < len →
      get_key (some mem) len = .ok (readBytes mem len) ∧
      (readBytes mem len).length = len ∧
      ∀ i, i < len → (readBytes mem len).getD i 0 = mem i) := by
  refine ⟨rfl, rfl, fun hlen => ⟨?_, readBytes_length mem len, fun i hi => readBytes_getD mem len i hi⟩⟩
  cases len with
  | zero => omega
  | succ n => rfl

/-- Witness for C5 at a concrete non-null pointer and length. -/
theorem get_key_spec_witness :
    0 < 3 ∧ get_key (some (fun i => 40 + i)) 3 = .ok [40, 41, 42] := by
  refine ⟨by decide, ?_⟩
  have h := ((get_key_spec (fun i => 40 + i) 3).2.2 (by decide)).1
  rw [h]
  rfl

/-- C6: `get_output_base(ptr, len)` returns `Ok` with the ten ASCII digit
bytes `"0123456789"` whenever `ptr` is null, regardless of `len`; returns
`Err(InvalidBaseLen)` when `ptr` is non-null and `len` is `0` or `1`; and
when `ptr` is non-null and `len ≥ 2` returns `Ok` with an owned copy of
the `len` bytes at `ptr`. -/
theorem get_output_base_spec (mem : Nat → Nat) (len : Nat) :
    get_output_base none len = .ok [48, 49, 50, 51, 52, 53, 54, 55, 56, 57] ∧
    get_output_base (some mem) 0 = .error ErrorCode.InvalidBaseLen ∧
    get_output_base (some mem) 1 = .error ErrorCode.InvalidBaseLen ∧
    (2 ≤ len →
      get_output_base (some mem) len = .ok (readBytes mem len) ∧
      (readBytes mem len).length = len ∧
      ∀ i, i < len → (readBytes mem len).getD i 0 = mem i) := by
  refine ⟨rfl, rfl, rfl, fun hlen => ⟨?_, readBytes_length mem len, fun i hi => readBytes_getD mem len i hi⟩⟩
  match len, hlen with
  | n + 2, _ => rfl

/-- Witness for C6 at a null pointer and at a concrete two-byte base. -/
theorem get_output_base_spec_witness :
    get_output_base none 77 = .ok [48, 49, 50, 51, 52, 53, 54, 55, 56, 57] ∧
    (2 ≤ 2 ∧ get_output_base (some (fun i => 65 + i)) 2 = .ok [65, 66]) := by
  refine ⟨(get_output_base_spec (fun i => 65 + i) 77).1, by decide, ?_⟩
  have h := ((get_output_base_spec (fun i => 65 + i) 2).2.2.2 (by decide)).1
  rw [h]
  rfl

/-- C7: `get_code(ptr, len)` returns `Err(CodeNullPtr)` whenever `ptr` is
null; otherwise it copies the `len` bytes at `ptr` and returns
`Err(CodeInvalidUTF8)` exactly when those bytes are not valid UTF-8, and
`Ok` with the string made of those bytes when they are. -/
theorem get_code_spec (mem : Nat → Nat) (len : Nat) :
    get_code none len = .error ErrorCode.CodeNullPtr ∧
    (get_code (some mem) len = .error ErrorCode.CodeInvalidUTF8 ↔
      validateUtf8 (readBytes mem len) = false) ∧
    (validateUtf8 (readBytes mem len) = true →
      get_code (some mem) len = .ok (readBytes mem len)) := by
  refine ⟨rfl, ?_, ?_⟩ <;>
    cases hv : validateUtf8 (readBytes mem len) <;>
      simp [get_code, hv]

/-- Witness for C7: a valid two-byte UTF-8 sequence is accepted and an
invalid byte is rejected. -/
theorem get_code_spec_witness :
    validateUtf8 (readBytes (fun i => [195, 169].getD i 0) 2) = true ∧
    get_code (some (fun i => [195, 169].getD i 0)) 2 = .ok [195, 169] ∧
    get_code (some (fun _ => 255)) 1 = .error ErrorCode.CodeInvalidUTF8 := by
  refine ⟨by decide, ?_, ?_⟩
  · have h := (get_code_spec (fun i => [195, 169].getD i 0) 2).2.2 (by decide)
    rw [h]
    rfl
  · exact ((get_code_spec (fun _ => 255) 1).2.1).mpr (by decide)

theorem codeLengthAux_spec (r : Nat) (hr : r ≤ USIZE_MAX) :
    ∀ (k nb : Nat), nb ≤ USIZE_MAX →
      (nb * r ^ k ≤ USIZE_MAX → codeLengthAux r nb k = nb * r ^ k) ∧
      (USIZE_MAX < nb * r ^ k → codeLengthAux r nb k = USIZE_MAX) := by
  intro k
  induction k with
  | zero =>
    intro nb hnb
    refine ⟨fun _ => by simp [codeLengthAux], fun hlt => ?_⟩
    simp only [pow_zero, mul_one] at hlt
    omega
  | succ k ih =>
    intro nb hnb
    have hpow : nb * r ^ (k + 1) = nb * r * r ^ k := by ring
    by_cases hmul : nb * r ≤ USIZE_MAX
    · have hstep : codeLengthAux r nb (k + 1) = codeLengthAux r (nb * r) k := by
        simp [codeLengthAux, checked_mul, hmul]
      obtain ⟨h1, h2⟩ := ih (nb * r) hmul
      exact ⟨fun hle => by rw [hstep, hpow] at *; exact h1 (by omega),
             fun hlt => by rw [hstep, hpow] at *; exact h2 (by omega)⟩
    · have hstep : codeLengthAux r nb (k + 1) = USIZE_MAX := by
        simp [codeLengthAux, checked_mul, hmul]
      have hr1 : 1 ≤ r := by
        rcases Nat.eq_zero_or_pos r with h0 | h1
        · subst h0; omega
        · exact h1
      have hrk : 1 ≤ r ^ k := Nat.one_le_pow k r hr1
      have hgrow : nb * r ≤ nb * r * r ^ k := Nat.le_mul_of_pos_right _ (by omega)
      exact ⟨fun hle => by rw [hpow] at hle; omega, fun _ => hstep⟩

/-- C1: for a builder whose output base has length `r ≤ usize::MAX` and
whose `output_len` is `n ≥ 1`, `code_length` returns `r ^ n` when that
power fits in `usize`, and returns `usize::MAX` as the overflow sentinel
otherwise — never a wrapped or saturated smaller value. -/
theorem code_length_spec (b : Builder)
    (hr : b.output_base.length ≤ USIZE_MAX) (hn : 1 ≤ b.output_len) :
    (b.output_base.length ^ b.output_len ≤ USIZE_MAX →
      b.code_length = b.output_base.length ^ b.output_len) ∧
    (USIZE_MAX < b.output_base.length ^ b.output_len →
      b.code_length = USIZE_MAX) := by
  have hpow : b.output_base.length * b.output_base.length ^ (b.output_len - 1) =
      b.output_base.length ^ b.output_len := by
    conv_rhs => rw [show b.output_len = (b.output_len - 1) + 1 by omega]
    rw [pow_succ]
    ring
  obtain ⟨h1, h2⟩ :=
    codeLengthAux_spec b.output_base.length hr (b.output_len - 1) b.output_base.length hr
  rw [hpow] at h1 h2
  exact ⟨h1, h2⟩

/-- Witness for C1: the default decimal base with six digits gives
`10 ^ 6`, and a ten-symbol base with thirty digits overflows to the
`usize::MAX` sentinel. -/
theorem code_length_spec_witness :
    ((Builder.mk none none 6 [48, 49, 50, 51, 52, 53, 54, 55, 56, 57] .Sha1).output_base.length ≤ USIZE_MAX ∧
      1 ≤ (Builder.mk none none 6 [48, 49, 50, 51, 52, 53, 54, 55, 56, 57] .Sha1).output_len ∧
      (Builder.mk none none 6 [48, 49, 50, 51, 52, 53, 54, 55, 56, 57] .Sha1).code_length = 1000000) ∧
    (Builder.mk none none 30 [48, 49, 50, 51, 52, 53, 54, 55, 56, 57] .Sha1).code_length = USIZE_MAX := by
  constructor
  · refine ⟨by decide, by decide, ?_⟩
    have h := (code_length_spec
      (Builder.mk none none 6 [48, 49, 50, 51, 52, 53, 54, 55, 56, 57] .Sha1)
      (by decide) (by decide)).1 (by decide)
    rw [h]
    decide
  · exact (code_length_spec
      (Builder.mk none none 30 [48, 49, 50, 51, 52, 53, 54, 55, 56, 57] .Sha1)
      (by decide) (by decide)).2 (by decide)

/-- C10: `code_length` treats `output_len = 0` exactly like
`output_len = 1`: both make the multiplication loop over `1..output_len`
run zero times, so the result is the output base's length `r` (that is,
`r ^ 1`, not `r ^ 0 = 1`). -/
theorem code_length_output_len_zero (b : Builder) (h : b.output_len = 0) :
    b.code_length = b.output_base.length ∧
    (b.setOutputLen 1).code_length = b.output_base.length := by
  constructor
  · rw [Builder.code_length, h]
    rfl
  · rw [Builder.code_length, Builder.setOutputLen]
    rfl

/-- Witness for C10: a two-symbol base with `output_len = 0` yields a
`code_length` of `2`, as does `output_len = 1`. -/
theorem code_length_output_len_zero_witness :
    (Builder.mk none none 0 [48, 49] .Sha1).output_len = 0 ∧
    (Builder.mk none none 0 [48, 49] .Sha1).code_length = 2 ∧
    ((Builder.mk none none 0 [48, 49] .Sha1).setOutputLen 1).code_length = 2 := by
  have h := code_length_output_len_zero (Builder.mk none none 0 [48, 49] .Sha1) (by decide)
  exact ⟨by decide, h.1, h.2⟩

theorem applySetter_ok_runtime (b : Builder) (c : SetterCall)
    (h : setterFails c = false) :
    (applySetter b c).runtime_error = b.runtime_error := by
  cases c with
  | hex_key s =>
    rcases hk : from_hex s with _ | k
    · rw [setterFails, hk] at h
      simp at h
    · simp [applySetter, Builder.hex_key, hk]
  | base32_key s =>
    rcases hk : base32Decode s with _ | k
    · rw [setterFails, hk] at h
      simp at h
    · simp [applySetter, Builder.base32_key, hk]
  | key k => rfl
  | ascii_key s => rfl
  | output_len n => rfl
  | output_base base => rfl
  | hash_function hf => rfl

theorem applySetter_fail_runtime (b : Builder) (c : SetterCall)
    (h : setterFails c = true) :
    (applySetter b c).runtime_error = some ErrorCode.InvalidKey := by
  cases c with
  | hex_key s =>
    rcases hk : from_hex s with _ | k
    · simp [applySetter, Builder.hex_key, hk]
    · rw [setterFails, hk] at h
      simp at h
  | base32_key s =>
    rcases hk : base32Decode s with _ | k
    · simp [applySetter, Builder.base32_key, hk]
    · rw [setterFails, hk] at h
      simp at h
  | key k => simp [setterFails] at h
  | ascii_key s => simp [setterFails] at h
  | output_len n => simp [setterFails] at h
  | output_base base => simp [setterFails] at h
  | hash_function hf => simp [setterFails] at h

theorem applySetters_invalidKey (cs : List SetterCall) :
    ∀ (b : Builder), b.runtime_error = some ErrorCode.InvalidKey →
      (applySetters b cs).runtime_error = some ErrorCode.InvalidKey := by
  induction cs with
  | nil => intro b hb; exact hb
  | cons c cs ih =>
    intro b hb
    show (applySetters (applySetter b c) cs).runtime_error = some ErrorCode.InvalidKey
    apply ih
    by_cases hc : setterFails c
    · exact applySetter_fail_runtime b c hc
    · rw [applySetter_ok_runtime b c (by simpa using hc)]
      exact hb

theorem applySetters_firstDecodeError (cs : List SetterCall) :
    ∀ (b : Builder), b.runtime_error = none →
      (applySetters b cs).runtime_error = firstDecodeError cs := by
  induction cs with
  | nil => intro b hb; exact hb
  | cons c cs ih =>
    intro b hb
    by_cases hc : setterFails c
    · have h1 : (applySetter b c).runtime_error = some ErrorCode.InvalidKey :=
        applySetter_fail_runtime b c hc
      have h2 : (applySetters b (c :: cs)).runtime_error = some ErrorCode.InvalidKey :=
        applySetters_invalidKey cs (applySetter b c) h1
      rw [h2, firstDecodeError, List.find?_cons_of_pos _ hc]
      rfl
    · have h1 : (applySetter b c).runtime_error = none := by
        rw [applySetter_ok_runtime b c (by simpa using hc)]
        exact hb
      have h2 := ih (applySetter b c) h1
      rw [show applySetters b (c :: cs) = applySetters (applySetter b c) cs from rfl, h2,
        firstDecodeError, firstDecodeError, List.find?_cons_of_neg _ (by simpa using hc)]

/-- C2: a failing `hex_key` or `base32_key` call records `InvalidKey` in
the builder's `runtime_error` field instead of raising, returning the
builder otherwise unchanged so further calls can be chained; and over any
chain of setter calls starting from a builder with no recorded error, the
error left for `build()` to surface is the one recorded by the first
failing decode call. -/
theorem deferred_key_errors :
    (∀ (b : Builder) (s : List Nat), from_hex s = none →
      b.hex_key s = { b with runtime_error := some ErrorCode.InvalidKey }) ∧
    (∀ (b : Builder) (s : List Nat), base32Decode s = none →
      b.base32_key s = { b with runtime_error := some ErrorCode.InvalidKey }) ∧
    (∀ (b : Builder) (cs : List SetterCall), b.runtime_error = none →
      (applySetters b cs).runtime_error = firstDecodeError cs) := by
  refine ⟨fun b s hs => ?_, fun b s hs => ?_, fun b cs hb => applySetters_firstDecodeError cs b hb⟩
  · rw [Builder.hex_key, hs]
  · rw [Builder.base32_key, hs]

/-- Witness for C2: a failing hex decode on a clean builder records
`InvalidKey`, keeps the builder chainable, and the error surviving a
subsequent valid `key` call and a second failing decode is the first
recorded one. -/
theorem deferred_key_errors_witness :
    from_hex [103] = none ∧
    (Builder.mk none none 6 [48, 49] .Sha1).hex_key [103] =
      Builder.mk none (some ErrorCode.InvalidKey) 6 [48, 49] .Sha1 ∧
    (applySetters (Builder.mk none none 6 [48, 49] .Sha1)
        [.hex_key [103], .key [1, 2], .base32_key [49]]).runtime_error =
      firstDecodeError [.hex_key [103], .key [1, 2], .base32_key [49]] ∧
    firstDecodeError [SetterCall.hex_key [103], .key [1, 2], .base32_key [49]] =
      some ErrorCode.InvalidKey := by
  refine ⟨by decide, ?_, ?_, by decide⟩
  · rw [deferred_key_errors.1 (Builder.mk none none 6 [48, 49] .Sha1) [103] (by decide)]
  · exact deferred_key_errors.2.2 (Builder.mk none none 6 [48, 49] .Sha1)
      [.hex_key [103], .key [1, 2], .base32_key [49]] rfl

/-- C9: once `runtime_error` holds `some e`, every setter call that is not
itself a failing decode — `key`, `ascii_key`, `output_len`, `output_base`,
`hash_function`, and `hex_key`/`base32_key` calls whose decode succeeds —
leaves `runtime_error` equal to `some e`; in particular it is never reset
to `none`. -/
theorem runtime_error_persists (b : Builder) (c : SetterCall) (e : ErrorCode)
    (hb : b.runtime_error = some e) (hc : setterFails c = false) :
    (applySetter b c).runtime_error = some e := by
  rw [applySetter_ok_runtime b c hc]
  exact hb

/-- Witness for C9: after a recorded error, supplying a valid raw key and
then a successfully decoding hex key leaves the error in place. -/
theorem runtime_error_persists_witness :
    setterFails (SetterCall.key [1, 2]) = false ∧
    setterFails (SetterCall.hex_key [54, 49]) = false ∧
    (applySetter (Builder.mk none (some ErrorCode.InvalidKey) 6 [48, 49] .Sha1)
      (.key [1, 2])).runtime_error = some ErrorCode.InvalidKey ∧
    (applySetter (Builder.mk none (some ErrorCode.InvalidKey) 6 [48, 49] .Sha1)
      (.hex_key [54, 49])).runtime_error = some ErrorCode.InvalidKey := by
  refine ⟨by decide, by decide, ?_, ?_⟩
  · exact runtime_error_persists _ _ ErrorCode.InvalidKey rfl (by decide)
  · exact runtime_error_persists _ _ ErrorCode.InvalidKey rfl (by decide)

theorem hexDigitByte_isHex : ∀ n, n < 16 → isHexDigitByte (hexDigitByte n) = true := by
  decide

theorem hexDigitByte_val : ∀ n, n < 16 → hexDigitVal (hexDigitByte n) = n := by
  decide

theorem from_hex_toHex (k : List Nat) (hk : ∀ x ∈ k, x < 256) :
    from_hex (toHex k) = some k := by
  induction k with
  | nil => rfl
  | cons x xs ih =>
    have hx : x < 256 := hk x (List.mem_cons_self x xs)
    have h1 : x / 16 < 16 := by omega
    have h2 : x % 16 < 16 := by omega
    have hrest : from_hex (toHex xs) = some xs :=
      ih (fun y hy => hk y (List.mem_cons_of_mem x hy))
    rw [toHex, from_hex, hexDigitByte_isHex _ h1, hexDigitByte_isHex _ h2]
    simp only [Bool.and_self, if_true, hrest]
    rw [hexDigitByte_val _ h1, hexDigitByte_val _ h2]
    rw [show 16 * (x / 16) + x % 16 = x from Nat.div_add_mod x 16]
    rfl

theorem from_hex_some_shape :
    ∀ (s l : List Nat), from_hex s = some l →
      s.length % 2 = 0 ∧ ∀ c ∈ s, isHexDigitByte c = true
  | [], _, _ => ⟨rfl, by simp⟩
  | [a], _, h => by simp [from_hex] at h
  | c1 :: c2 :: rest, l, h => by
    by_cases h12 : isHexDigitByte c1 && isHexDigitByte c2
    · rcases hr : from_hex rest with _ | l'
      · rw [from_hex, if_pos h12, hr] at h
        simp at h
      · obtain ⟨hlen, hall⟩ := from_hex_some_shape rest l' hr
        rw [Bool.and_eq_true] at h12
        refine ⟨by simp only [List.length_cons]; omega, ?_⟩
        intro c hc
        simp only [List.mem_cons] at hc
        rcases hc with rfl | rfl | hc
        · exact h12.1
        · exact h12.2
        · exact hall c hc
    · rw [from_hex, if_neg h12] at h
      simp at h

/-- C4: `hex_key` round-trips hex encoding — on the hexadecimal encoding
of any byte sequence `k` it sets the builder's key to `some k` and records
no error; on any input of odd length or containing a non-hex-digit byte it
records `InvalidKey` in `runtime_error` and leaves the key field
unmodified. -/
theorem hex_key_roundtrip :
    (∀ (b : Builder) (k : List Nat), (∀ x ∈ k, x < 256) →
      (b.hex_key (toHex k)).key = some k ∧
      (b.hex_key (toHex k)).runtime_error = b.runtime_error) ∧
    (∀ (b : Builder) (s : List Nat),
      (s.length % 2 = 1 ∨ ∃ c ∈ s, isHexDigitByte c = false) →
      (b.hex_key s).runtime_error = some ErrorCode.InvalidKey ∧
      (b.hex_key s).key = b.key) := by
  constructor
  · intro b k hk
    rw [Builder.hex_key, from_hex_toHex k hk]
    exact ⟨rfl, rfl⟩
  · intro b s hs
    have hnone : from_hex s = none := by
      rcases hf : from_hex s with _ | l
      · rfl
      · obtain ⟨hlen, hall⟩ := from_hex_some_shape s l hf
        rcases hs with hodd | ⟨c, hc, hbad⟩
        · omega
        · rw [hall c hc] at hbad
          exact absurd hbad (by simp)
    rw [Builder.hex_key, hnone]
    exact ⟨rfl, rfl⟩

/-- Witness for C4: the byte `0xAB` encodes to `"ab"` and decodes back,
while the odd-length string `"a"` records `InvalidKey`. -/
theorem hex_key_roundtrip_witness :
    (∀ x ∈ ([171] : List Nat), x < 256) ∧
    toHex [171] = [97, 98] ∧
    ((Builder.mk none none 6 [48, 49] .Sha1).hex_key (toHex [171])).key = some [171] ∧
    ((Builder.mk none none 6 [48, 49] .Sha1).hex_key (toHex [171])).runtime_error = none ∧
    (([97] : List Nat).length % 2 = 1 ∨ ∃ c ∈ ([97] : List Nat), isHexDigitByte c = false) ∧
    ((Builder.mk (some [3]) none 6 [48, 49] .Sha1).hex_key [97]).runtime_error =
      some ErrorCode.InvalidKey ∧
    ((Builder.mk (some [3]) none 6 [48, 49] .Sha1).hex_key [97]).key = some [3] := by
  have h1 := hex_key_roundtrip.1 (Builder.mk none none 6 [48, 49] .Sha1) [171] (by decide)
  have h2 := hex_key_roundtrip.2 (Builder.mk (some [3]) none 6 [48, 49] .Sha1) [97]
    (Or.inl (by decide))
  exact ⟨by decide, by decide, h1.1, h1.2, Or.inl (by decide), h2.1, h2.2⟩

theorem getD_set_self (l : List Nat) (i v : Nat) (h : i < l.length) :
    (l.set i v).getD i 0 = v := by
  rw [List.getD_eq_getElem _ _ (by rw [List.length_set]; exact h)]
  simp [List.getElem_set]

theorem getD_set_of_ne (l : List Nat) (i v j : Nat) (h : i ≠ j) :
    (l.set i v).getD j 0 = l.getD j 0 := by
  rcases Nat.lt_or_ge j l.length with hj | hj
  · rw [List.getD_eq_getElem _ _ (by rw [List.length_set]; exact hj),
      List.getD_eq_getElem _ _ hj]
    simp [List.getElem_set, h]
  · rw [List.getD_eq_default _ _ (by rw [List.length_set]; exact hj),
      List.getD_eq_default _ _ hj]

theorem writeCodeAux_spec :
    ∀ (code : List Nat) (i : Nat) (dest : List Nat),
      i + code.length + 1 ≤ dest.length →
      ∃ d, writeCodeAux code i dest = some d ∧ d.length = dest.length ∧
        ∀ j, j < dest.length →
          d.getD j 0 =
            if j < i then dest.getD j 0
            else if j < i + code.length then code.getD (j - i) 0
            else if j = i + code.length then 0
            else dest.getD j 0 := by
  intro code
  induction code with
  | nil =>
    intro i dest hle
    have hi : i < dest.length := by simp at hle; omega
    refine ⟨dest.set i 0, by rw [writeCodeAux, listSet?, if_pos hi], List.length_set dest i 0, ?_⟩
    intro j hj
    rcases Nat.lt_trichotomy j i with hji | hji | hji
    · rw [if_pos hji, getD_set_of_ne dest i 0 j (by omega)]
    · subst hji
      rw [if_neg (by omega), List.length_nil, if_neg (by omega), if_pos (by omega),
        getD_set_self dest j 0 hi]
    · rw [if_neg (by omega), List.length_nil, if_neg (by omega), if_neg (by omega),
        getD_set_of_ne dest i 0 j (by omega)]
  | cons c cs ih =>
    intro i dest hle
    have hi : i < dest.length := by simp at hle; omega
    have hstep : listSet? dest i c = some (dest.set i c) := by rw [listSet?, if_pos hi]
    have hle' : (i + 1) + cs.length + 1 ≤ (dest.set i c).length := by
      rw [List.length_set]
      simp at hle
      omega
    obtain ⟨d, hd, hlen, hget⟩ := ih (i + 1) (dest.set i c) hle'
    refine ⟨d, ?_, by rw [hlen, List.length_set], ?_⟩
    · rw [writeCodeAux, hstep]
      exact hd
    · intro j hj
      have hj' : j < (dest.set i c).length := by rw [List.length_set]; exact hj
      rw [hget j hj', List.length_cons]
      rcases eq_or_ne i j with rfl | hne
      · rw [getD_set_self dest i c hi,
          if_pos (show i < i + 1 by omega), if_neg (show ¬ i < i by omega),
          if_pos (show i < i + (cs.length + 1) by omega), Nat.sub_self, List.getD_cons_zero]
      · rw [getD_set_of_ne dest i c j hne]
        rcases Nat.lt_or_ge j i with hji | hji
        · rw [if_pos (show j < i + 1 by omega), if_pos (show j < i by omega)]
        · have hij : i < j := by omega
          rw [if_neg (show ¬ j < i + 1 by omega), if_neg (show ¬ j < i by omega)]
          rcases Nat.lt_trichotomy j (i + 1 + cs.length) with hjl | hjl | hjl
          · rw [if_pos (show j < i + 1 + cs.length by omega),
              if_pos (show j < i + (cs.length + 1) by omega),
              show j - i = (j - (i + 1)) + 1 by omega, List.getD_cons_succ]
          · rw [if_neg (show ¬ j < i + 1 + cs.length by omega),
              if_pos (show j = i + 1 + cs.length by omega),
              if_neg (show ¬ j < i + (cs.length + 1) by omega),
              if_pos (show j = i + (cs.length + 1) by omega)]
          · rw [if_neg (show ¬ j < i + 1 + cs.length by omega),
              if_neg (show ¬ j = i + 1 + cs.length by omega),
              if_neg (show ¬ j < i + (cs.length + 1) by omega),
              if_neg (show ¬ j = i + (cs.length + 1) by omega)]

/-- C3: under the documented precondition `dest.len() ≥ code.len() + 1`,
`write_code(code, dest)` copies `code[i]` to `dest[i]` for every
`i < code.len()`, writes a `0` terminator at index `code.len()`, and
leaves every byte of `dest` at an index greater than `code.len()`
unchanged — it never writes beyond the first `code.len() + 1` bytes. -/
theorem write_code_spec (code dest : List Nat) (h : code.length + 1 ≤ dest.length) :
    ∃ d, write_code code dest = some d ∧ d.length = dest.length ∧
      (∀ i, i < code.length → d.getD i 0 = code.getD i 0) ∧
      d.getD code.length 0 = 0 ∧
      (∀ j, code.length < j → j < dest.length → d.getD j 0 = dest.getD j 0) := by
  obtain ⟨d, hd, hlen, hget⟩ := writeCodeAux_spec code 0 dest (by omega)
  refine ⟨d, hd, hlen, ?_, ?_, ?_⟩
  · intro i hi
    have := hget i (by omega)
    rw [if_neg (by omega), if_pos (by omega)] at this
    simpa using this
  · have := hget code.length (by omega)
    rw [if_neg (by omega), if_neg (by omega), if_pos (by omega)] at this
    exact this
  · intro j hj1 hj2
    have := hget j hj2
    rw [if_neg (by omega), if_neg (by omega), if_neg (by omega)] at this
    exact this

/-- Witness for C3: a two-byte code written into a five-byte buffer. -/
theorem write_code_spec_witness :
    ([7, 8] : List Nat).length + 1 ≤ ([1, 2, 3, 4, 5] : List Nat).length ∧
    ∃ d, write_code [7, 8] [1, 2, 3, 4, 5] = some d ∧ d.length = 5 ∧
      d.getD 0 0 = 7 ∧ d.getD 1 0 = 8 ∧ d.getD 2 0 = 0 ∧
      d.getD 3 0 = 4 ∧ d.getD 4 0 = 5 := by
  refine ⟨by decide, ?_⟩
  obtain ⟨d, hd, hlen, hcopy, hzero, hframe⟩ :=
    write_code_spec [7, 8] [1, 2, 3, 4, 5] (by decide)
  refine ⟨d, hd, by simpa using hlen, ?_, ?_, by simpa using hzero, ?_, ?_⟩
  · have := hcopy 0 (by decide)
    simpa using this
  · have := hcopy 1 (by decide)
    simpa using this
  · have := hframe 3 (by decide) (by decide)
    simpa using this
  · have := hframe 4 (by decide) (by decide)
    simpa using this

/-- C8: `write_code` never panics under the documented precondition that
`dest` has at least `code.len() + 1` bytes: every index it writes is in
bounds, so the `Option`-modelled computation (where `none` is a panic)
returns a value. -/
theorem write_code_no_panic (code dest : List Nat) (h : code.length + 1 ≤ dest.length) :
    (write_code code dest).isSome = true := by
  obtain ⟨d, hd, -, -⟩ := writeCodeAux_spec code 0 dest (by omega)
  rw [write_code, hd]
  rfl

/-- Witness for C8 at a concrete code and buffer. -/
theorem write_code_no_panic_witness :
    ([7, 8] : List Nat).length + 1 ≤ ([1, 2, 3] : List Nat).length ∧
    (write_code [7, 8] [1, 2, 3]).isSome = true :=
  ⟨by decide, write_code_no_panic [7, 8] [1, 2, 3] (by decide)⟩
